import Mathlib

/-!
Verification development for a fiber (stackful coroutine) runtime library:
an unbuffered rendezvous channel (`unbuffered_channel`), an intrusive
wait-queue (`context_slist`), a condition variable (`condition_variable_any`,
`notify_one` / `notify_all`), and a mutex-serialized broadcast sink.

Fibers (contexts) are identified by natural numbers.  Machine pointers are
modelled by `Option` values; the address identity of a producer's stack slot
is modelled by a numeric slot id (`sid`).  Each definition is a direct
translation of the corresponding C++ function; a sequential (single actor at
a time) semantics collapses the CAS retry loops of `try_push_` / `try_pop_`
to a single test, since no interference can occur between the atomic load
and the immediately following compare-exchange of the same actor.
-/

namespace Fiber

/-- Identifier of a fiber control block (`context *`). -/
abbrev CtxId := Nat

/-- Channel status enumeration (`channel_op_status`). -/
inductive ChannelOpStatus
  | success
  | empty
  | full
  | closed
  | timeout
deriving DecidableEq

/-- Error code carried by a fiber error (`std::errc::operation_not_permitted`). -/
inductive ErrcCode
  | operation_not_permitted
deriving DecidableEq

/-- Typed fiber error (`fiber_error`), carrying an error code and a message. -/
structure FiberError where
  code : ErrcCode
  msg : String
deriving DecidableEq

/-- Modelled from the spec: `context::wait_queue_t` (declared in the missing
`context.hpp`) is the intrusive FIFO wait-queue of contexts of spec section 4.2,
here as a list with append at the tail. -/
def wqPush (q : List CtxId) (c : CtxId) : List CtxId :=
  q ++ [c]

/-- Modelled from the spec: FIFO `pop` returns the head (or none) and the rest. -/
def wqPop (q : List CtxId) : Option CtxId × List CtxId :=
  match q with
  | [] => (none, [])
  | c :: rest => (some c, rest)

/-- Modelled from the spec: `unlink(c)` removes the known member `c`. -/
def wqUnlink (q : List CtxId) (c : CtxId) : List CtxId :=
  q.erase c

/-- Producer-owned channel slot (`unbuffered_channel::slot`): the value, the
producer context, and `sid` standing for the slot's stack address identity. -/
structure Slot (α : Type) where
  value : α
  ctx : CtxId
  sid : Nat
deriving DecidableEq

/-- State of an `unbuffered_channel`: the published slot pointer `slot_`, the
`closed_` flag, and the two wait-queues. -/
structure ChanState (α : Type) where
  slot_ : Option (Slot α)
  closed_ : Bool
  waiting_producers_ : List CtxId
  waiting_consumers_ : List CtxId
deriving DecidableEq

/-- Translation of `is_empty_`: the slot pointer is nil. -/
def is_empty_ {α : Type} (st : ChanState α) : Bool :=
  st.slot_.isNone

/-- Translation of `is_closed`. -/
def is_closed {α : Type} (st : ChanState α) : Bool :=
  st.closed_

/-- Translation of `try_push_`: CAS `slot_` from nil to the producer's own
slot; fails when a slot is already published. -/
def try_push_ {α : Type} (st : ChanState α) (own_slot : Slot α) : Bool × ChanState α :=
  match st.slot_ with
  | none => (true, { st with slot_ := some own_slot })
  | some _ => (false, st)

/-- Translation of `try_pop_`: CAS `slot_` from a published slot to nil,
returning the claimed slot (or none). -/
def try_pop_ {α : Type} (st : ChanState α) : Option (Slot α) × ChanState α :=
  match st.slot_ with
  | some s => (some s, { st with slot_ := none })
  | none => (none, st)

/-- Translation of the drain loops of `close`: pop every context of a queue
in FIFO order (`while (nullptr != (ctx = q.pop())) set_ready(ctx)`). -/
def drainSchedule : List CtxId → List CtxId
  | [] => []
  | c :: rest => c :: drainSchedule rest

/-- Translation of `close`: under the spinlock, store `closed_ := true`, then
schedule every waiting producer and every waiting consumer.  Returns the new
state and the list of contexts passed to `set_ready`, in order. -/
def close {α : Type} (st : ChanState α) : ChanState α × List CtxId :=
  ({ st with
      closed_ := true
      waiting_producers_ := []
      waiting_consumers_ := [] },
    drainSchedule st.waiting_producers_ ++ drainSchedule st.waiting_consumers_)

/-- Translation of the destructor `~unbuffered_channel`: `close()`, then
`try_pop_`, and if a slot was still published mark its producer ready. -/
def dtor {α : Type} (st : ChanState α) : ChanState α × List CtxId :=
  let (st1, sched1) := close st
  let (s, st2) := try_pop_ st1
  match s with
  | some sl => (st2, sched1 ++ [sl.ctx])
  | none => (st2, sched1)

/-- Slot construction of the copy-accepting `push` overloads
(`slot s{ value, active_ctx }`). -/
def slot_from_copy {α : Type} (value : α) (active_ctx : CtxId) (sid : Nat) : Slot α :=
  { value := value, ctx := active_ctx, sid := sid }

/-- Slot construction of the move-accepting `push` overloads
(`slot s{ std::move( value), active_ctx }`); in a value-semantics model the
move is a plain capture of the value. -/
def slot_from_move {α : Type} (value : α) (active_ctx : CtxId) (sid : Nat) : Slot α :=
  { value := value, ctx := active_ctx, sid := sid }

/-- Outcome of one iteration of a `push` / `push_wait_until` loop body:
a return with status, or a suspension (with the slot published, or enqueued
on the producers queue), or the `continue` retry when the slot emptied.
Every outcome carries the channel state and the contexts passed to
`set_ready` during the iteration. -/
inductive PushRes (α : Type)
  | ret (status : ChannelOpStatus) (st : ChanState α) (scheduled : List CtxId)
  | suspendOwner (st : ChanState α) (scheduled : List CtxId)
  | suspendWaiter (st : ChanState α) (scheduled : List CtxId)
  | retryEmpty (st : ChanState α)
deriving DecidableEq

/-- Translation of the loop body of `push( value_type const&)`:
check `closed_`; `try_push_`; on publication pop and schedule one waiting
consumer and suspend; otherwise re-check `closed_`, re-check emptiness
(`continue`), or enqueue on the producers queue and suspend. -/
def push_iter_copy {α : Type} (active_ctx : CtxId) (value : α) (sid : Nat)
    (st : ChanState α) : PushRes α :=
  let s := slot_from_copy value active_ctx sid
  if is_closed st then
    .ret .closed st []
  else
    match try_push_ st s with
    | (true, st1) =>
        let (consumer_ctx, q) := wqPop st1.waiting_consumers_
        let st2 := { st1 with waiting_consumers_ := q }
        match consumer_ctx with
        | some c => .suspendOwner st2 [c]
        | none => .suspendOwner st2 []
    | (false, st1) =>
        if is_closed st1 then
          .ret .closed st1 []
        else if is_empty_ st1 then
          .retryEmpty st1
        else
          .suspendWaiter
            { st1 with waiting_producers_ := wqPush st1.waiting_producers_ active_ctx } []

/-- Translation of the loop body of `push( value_type &&)`; identical to the
copy overload except that the slot captures the value by move. -/
def push_iter_move {α : Type} (active_ctx : CtxId) (value : α) (sid : Nat)
    (st : ChanState α) : PushRes α :=
  let s := slot_from_move value active_ctx sid
  if is_closed st then
    .ret .closed st []
  else
    match try_push_ st s with
    | (true, st1) =>
        let (consumer_ctx, q) := wqPop st1.waiting_consumers_
        let st2 := { st1 with waiting_consumers_ := q }
        match consumer_ctx with
        | some c => .suspendOwner st2 [c]
        | none => .suspendOwner st2 []
    | (false, st1) =>
        if is_closed st1 then
          .ret .closed st1 []
        else if is_empty_ st1 then
          .retryEmpty st1
        else
          .suspendWaiter
            { st1 with waiting_producers_ := wqPush st1.waiting_producers_ active_ctx } []

/-- Translation of the loop body of `push_wait_until( value_type const&, ...)`
up to the suspension points; the structure equals the untimed push body, with
`wait_until` in place of `suspend` at both suspension points. -/
def push_wait_until_iter_copy {α : Type} (active_ctx : CtxId) (value : α) (sid : Nat)
    (st : ChanState α) : PushRes α :=
  let s := slot_from_copy value active_ctx sid
  if is_closed st then
    .ret .closed st []
  else
    match try_push_ st s with
    | (true, st1) =>
        let (consumer_ctx, q) := wqPop st1.waiting_consumers_
        let st2 := { st1 with waiting_consumers_ := q }
        match consumer_ctx with
        | some c => .suspendOwner st2 [c]
        | none => .suspendOwner st2 []
    | (false, st1) =>
        if is_closed st1 then
          .ret .closed st1 []
        else if is_empty_ st1 then
          .retryEmpty st1
        else
          .suspendWaiter
            { st1 with waiting_producers_ := wqPush st1.waiting_producers_ active_ctx } []

/-- Translation of the loop body of `push_wait_until( value_type &&, ...)` up
to the suspension points. -/
def push_wait_until_iter_move {α : Type} (active_ctx : CtxId) (value : α) (sid : Nat)
    (st : ChanState α) : PushRes α :=
  let s := slot_from_move value active_ctx sid
  if is_closed st then
    .ret .closed st []
  else
    match try_push_ st s with
    | (true, st1) =>
        let (consumer_ctx, q) := wqPop st1.waiting_consumers_
        let st2 := { st1 with waiting_consumers_ := q }
        match consumer_ctx with
        | some c => .suspendOwner st2 [c]
        | none => .suspendOwner st2 []
    | (false, st1) =>
        if is_closed st1 then
          .ret .closed st1 []
        else if is_empty_ st1 then
          .retryEmpty st1
        else
          .suspendWaiter
            { st1 with waiting_producers_ := wqPush st1.waiting_producers_ active_ctx } []

/-- Translation of the wake continuation of `push_wait_until` (both value
overloads) after the producer suspended with its slot published: when
`wait_until` reported a deadline wake (`woken = false`), the code performs
`slot_.compare_exchange_strong( own_slot, nil_slot)` and returns `timeout`
without inspecting the result of the compare-exchange; on a scheduled wake it
returns `success`. -/
def push_wait_until_owner_wake {α : Type} (woken : Bool) (s : Slot α)
    (st : ChanState α) : ChannelOpStatus × ChanState α :=
  if !woken then
    let st1 :=
      match st.slot_ with
      | some cur => if cur.sid = s.sid then { st with slot_ := none } else st
      | none => st
    (.timeout, st1)
  else
    (.success, st)

/-- Translation of the wake continuation of `push_wait_until` after the
producer suspended on the producers queue: on a deadline wake it relocks,
unlinks itself from the producers queue and returns `timeout`; on a scheduled
wake the loop retries (`none`). -/
def push_wait_until_waiter_wake {α : Type} (woken : Bool) (active_ctx : CtxId)
    (st : ChanState α) : Option ChannelOpStatus × ChanState α :=
  if !woken then
    (some .timeout,
      { st with waiting_producers_ := wqUnlink st.waiting_producers_ active_ctx })
  else
    (none, st)

/-- Outcome of one iteration of a `pop` / `pop_wait_until` loop body; carries
the out-parameter `value`, the state, and the contexts passed to `set_ready`. -/
inductive PopRes (α : Type)
  | ret (status : ChannelOpStatus) (value : α) (st : ChanState α) (scheduled : List CtxId)
  | suspendConsumer (value : α) (st : ChanState α)
  | retryNonEmpty (value : α) (st : ChanState α)
deriving DecidableEq

/-- Translation of the loop body of `pop( value_type &)`: `try_pop_`; on a
claimed slot pop and schedule one waiting producer, move the slot's value
into the out-parameter, schedule the slot's owning producer and return
`success`; otherwise return `closed` when closed, `continue` when a slot
reappeared, or enqueue on the consumers queue and suspend. -/
def pop_iter {α : Type} (active_ctx : CtxId) (value : α) (st : ChanState α) : PopRes α :=
  match try_pop_ st with
  | (some s, st1) =>
      let (producer_ctx, q) := wqPop st1.waiting_producers_
      let st2 := { st1 with waiting_producers_ := q }
      let sched :=
        match producer_ctx with
        | some p => [p]
        | none => []
      .ret .success s.value st2 (sched ++ [s.ctx])
  | (none, st1) =>
      if is_closed st1 then
        .ret .closed value st1 []
      else if !(is_empty_ st1) then
        .retryNonEmpty value st1
      else
        .suspendConsumer value
          { st1 with waiting_consumers_ := wqPush st1.waiting_consumers_ active_ctx }

/-- Outcome of one iteration of the `value_pop` loop body: a returned value,
a raised fiber error, a suspension on the consumers queue, or the `continue`
retry. -/
inductive ValuePopRes (α : Type)
  | ret (value : α) (st : ChanState α) (scheduled : List CtxId)
  | raise (e : FiberError) (st : ChanState α)
  | suspendConsumer (st : ChanState α)
  | retryNonEmpty (st : ChanState α)
deriving DecidableEq

/-- Translation of the loop body of `value_pop`: as `pop`, but the value is
returned directly and a closed channel with no published slot raises a
`fiber_error` carrying `operation_not_permitted`. -/
def value_pop_iter {α : Type} (active_ctx : CtxId) (st : ChanState α) : ValuePopRes α :=
  match try_pop_ st with
  | (some s, st1) =>
      let (producer_ctx, q) := wqPop st1.waiting_producers_
      let st2 := { st1 with waiting_producers_ := q }
      let sched :=
        match producer_ctx with
        | some p => [p]
        | none => []
      .ret s.value st2 (sched ++ [s.ctx])
  | (none, st1) =>
      if is_closed st1 then
        .raise { code := .operation_not_permitted, msg := "boost fiber: channel is closed" } st1
      else if !(is_empty_ st1) then
        .retryNonEmpty st1
      else
        .suspendConsumer
          { st1 with waiting_consumers_ := wqPush st1.waiting_consumers_ active_ctx }

/-- Translation of the loop body of `pop_wait_until` up to the suspension
point; the structure equals the untimed pop body with `wait_until` in place
of `suspend`. -/
def pop_wait_until_iter {α : Type} (active_ctx : CtxId) (value : α)
    (st : ChanState α) : PopRes α :=
  match try_pop_ st with
  | (some s, st1) =>
      let (producer_ctx, q) := wqPop st1.waiting_producers_
      let st2 := { st1 with waiting_producers_ := q }
      let sched :=
        match producer_ctx with
        | some p => [p]
        | none => []
      .ret .success s.value st2 (sched ++ [s.ctx])
  | (none, st1) =>
      if is_closed st1 then
        .ret .closed value st1 []
      else if !(is_empty_ st1) then
        .retryNonEmpty value st1
      else
        .suspendConsumer value
          { st1 with waiting_consumers_ := wqPush st1.waiting_consumers_ active_ctx }

/-- Translation of the wake continuation of `pop_wait_until` after the
consumer suspended on the consumers queue: on a deadline wake it relocks,
unlinks itself from the consumers queue and returns `timeout`, leaving the
out-parameter untouched; on a scheduled wake the loop retries (`none`). -/
def pop_wait_until_waiter_wake {α : Type} (woken : Bool) (active_ctx : CtxId)
    (value : α) (st : ChanState α) : Option (ChannelOpStatus × α) × ChanState α :=
  if !woken then
    (some (.timeout, value),
      { st with waiting_consumers_ := wqUnlink st.waiting_consumers_ active_ctx })
  else
    (none, st)

/-- Channel state carried by a push iteration outcome. -/
def PushRes.state {α : Type} : PushRes α → ChanState α
  | .ret _ st _ => st
  | .suspendOwner st _ => st
  | .suspendWaiter st _ => st
  | .retryEmpty st => st

/-- Channel state carried by a pop iteration outcome. -/
def PopRes.state {α : Type} : PopRes α → ChanState α
  | .ret _ _ st _ => st
  | .suspendConsumer _ st => st
  | .retryNonEmpty _ st => st

/-- Channel state carried by a `value_pop` iteration outcome. -/
def ValuePopRes.state {α : Type} : ValuePopRes α → ChanState α
  | .ret _ st _ => st
  | .raise _ st => st
  | .suspendConsumer st => st
  | .retryNonEmpty st => st

/-- Pointer-to-pointer (`Context **`) into a `context_slist`: either the
address of `head_` or the address of the `next` field of a given context. -/
inductive SPtr
  | headSlot
  | nextOf (c : CtxId)
deriving DecidableEq

/-- State of a `context_slist` together with the intrusive `next` fields of
all contexts: `head_`, the cached tail pointer `tail_`, and the `next` field
store. -/
structure SList where
  head : Option CtxId
  tail : SPtr
  next : CtxId → Option CtxId

/-- Dereference a pointer-to-pointer (`* indirect`). -/
def SList.readPtr (l : SList) : SPtr → Option CtxId
  | .headSlot => l.head
  | .nextOf c => l.next c

/-- Store through a pointer-to-pointer (`* indirect = v`). -/
def SList.writePtr (l : SList) (p : SPtr) (v : Option CtxId) : SList :=
  match p with
  | .headSlot => { l with head := v }
  | .nextOf c => { l with next := fun x => if x = c then v else l.next x }

/-- Freshly constructed `context_slist` over contexts whose `next` fields are
all nil: `head_{ nullptr }`, `tail_{ & head_ }`. -/
def SList.init : SList :=
  { head := none, tail := .headSlot, next := fun _ => none }

/-- Translation of `context_slist::empty`: `nullptr == head_`. -/
def SList.empty (l : SList) : Bool :=
  l.head = none

/-- Translation of `context_slist::push`: when `* tail_` is nil store `c`
there; otherwise store `c` into `(* tail_)->next` and advance `tail_` to the
address of that `next` field. -/
def SList.push (l : SList) (c : CtxId) : SList :=
  match l.readPtr l.tail with
  | none => l.writePtr l.tail (some c)
  | some t =>
      let l1 := l.writePtr (.nextOf t) (some c)
      { l1 with tail := .nextOf t }

/-- Translation of `context_slist::pop`: return `head_` and, when non-nil,
advance `head_` to `head_->next`; neither `tail_` nor the popped context's
`next` field is touched. -/
def SList.pop (l : SList) : Option CtxId × SList :=
  match l.head with
  | none => (none, l)
  | some c => (some c, { l with head := l.next c })

/-- Event emitted during `condition_variable_any::notify_all`: spinlock
acquisition, a `set_ready` call on a waiter, or spinlock release. -/
inductive CvEvent
  | acq
  | setReady (c : CtxId)
  | rel
deriving DecidableEq

/-- Translation of the drain loop of `notify_all`:
`while (nullptr != (ctx = wait_queue_.pop())) set_ready(ctx)`, popping the
FIFO wait-queue and emitting a `set_ready` event per waiter. -/
def notify_all_drain : List CtxId → List CvEvent
  | [] => []
  | c :: rest => CvEvent.setReady c :: notify_all_drain rest

/-- Translation of `condition_variable_any::notify_all` as an event trace plus
the resulting wait-queue: the spinlock is acquired at entry, each waiter is
popped and passed to `set_ready` inside the locked region, and the spinlock
guard is released at scope exit, after the loop.  The cv's wait-queue type is
the same `context::wait_queue_t` modelled from the spec as a FIFO list. -/
def notify_all (wait_queue : List CtxId) : List CvEvent × List CtxId :=
  (CvEvent.acq :: (notify_all_drain wait_queue ++ [CvEvent.rel]), [])

/-- Scan of a cv event trace tracking whether the spinlock is held: every
`set_ready` must occur while the lock is held, acquisitions require a free
lock, releases require a held lock, and the lock is free at the end. -/
def cvLockScan : Bool → List CvEvent → Bool
  | held, [] => !held
  | held, .acq :: rest => if held then false else cvLockScan true rest
  | held, .setReady _ :: rest => if held then cvLockScan held rest else false
  | held, .rel :: rest => if held then cvLockScan false rest else false

/-- Waiters passed to `set_ready` in a cv event trace, in order. -/
def readyEvents (tr : List CvEvent) : List CtxId :=
  tr.filterMap fun e =>
    match e with
    | .setReady c => some c
    | _ => none

/-- Statement shape of the claim that `notify_all` schedules waiters only
after releasing the spinlock: no `set_ready` event precedes the release
event in the trace. -/
def NoScheduleBeforeRelease (tr : List CvEvent) : Prop :=
  ∀ pre post, tr = pre ++ CvEvent.rel :: post → ∀ c, CvEvent.setReady c ∉ pre

/-- Event of the broadcast model: a thread acquires the sink's mutex, invokes
subscribed slot `i`, or releases the mutex.  Two notifying threads are
identified by `Bool`. -/
inductive BEvent
  | acq (t : Bool)
  | inv (t : Bool) (i : Nat)
  | rel (t : Bool)
deriving DecidableEq

/-- Thread performing a broadcast event. -/
def BEvent.thread : BEvent → Bool
  | .acq t => t
  | .inv t _ => t
  | .rel t => t

/-- State of two threads each executing `broadcast::notify` once on a sink
with `n` subscribed slots: the mutex owner (none when free), each thread's
program counter, and the global trace of events.  Program counters: `0`
before `std::unique_lock` acquires the mutex, `k + 1` after invoking the
first `k` slots, `n + 2` after the lock guard released the mutex. -/
structure BState where
  mutex : Option Bool
  pcF : Nat
  pcT : Nat
  trace : List BEvent
deriving DecidableEq

/-- Program counter of thread `t`. -/
def BState.pc (s : BState) (t : Bool) : Nat :=
  bif t then s.pcT else s.pcF

/-- Update the program counter of thread `t`. -/
def BState.setPc (s : BState) (t : Bool) (v : Nat) : BState :=
  bif t then { s with pcT := v } else { s with pcF := v }

/-- Interleaving semantics of `broadcast::notify` on a sink with `n` slots:
a thread may acquire the mutex only when it is free (`std::unique_lock`
blocks otherwise); while between acquisition and release it invokes the
slots one by one in subscription order (`get_signal()( args ...)`); the lock
guard then releases the mutex.  Mutual exclusion of slot invocations is not
assumed anywhere: `invoke` and `release` constrain only the acting thread's
own program counter. -/
inductive BStep (n : Nat) : BState → BState → Prop
  | acquire (t : Bool) (s : BState) :
      s.mutex = none → s.pc t = 0 →
      BStep n s { s.setPc t 1 with mutex := some t, trace := s.trace ++ [BEvent.acq t] }
  | invoke (t : Bool) (s : BState) (k : Nat) :
      s.pc t = k + 1 → k < n →
      BStep n s { s.setPc t (k + 2) with trace := s.trace ++ [BEvent.inv t k] }
  | release (t : Bool) (s : BState) :
      s.pc t = n + 1 →
      BStep n s { s.setPc t (n + 2) with mutex := none, trace := s.trace ++ [BEvent.rel t] }

/-- Initial broadcast state: mutex free, both threads before their `notify`,
empty trace. -/
def bInit : BState :=
  { mutex := none, pcF := 0, pcT := 0, trace := [] }

/-- Reachability of a broadcast state from the initial state. -/
def BReach (n : Nat) (s : BState) : Prop :=
  Relation.ReflTransGen (BStep n) bInit s

/-- Invocation events of thread `t`, in subscription order, up to slot `m`. -/
def invSeq (t : Bool) (m : Nat) : List BEvent :=
  (List.range m).map (BEvent.inv t)

/-- Trace contributed by thread `t` at program counter `pc` in a run over `n`
slots. -/
def progTrace (n : Nat) (t : Bool) (pc : Nat) : List BEvent :=
  if pc = 0 then []
  else if pc ≤ n + 1 then BEvent.acq t :: invSeq t (pc - 1)
  else BEvent.acq t :: (invSeq t n ++ [BEvent.rel t])

/-- Inductive invariant of the broadcast semantics: program counters are
bounded; the mutex is held by `t` exactly while `t` is between acquisition
and release; and the trace is the contribution of one thread followed by the
contribution of the other, where the second thread only starts after the
first one finished. -/
def BInv (n : Nat) (s : BState) : Prop :=
  (∀ t, s.pc t ≤ n + 2) ∧
  (∀ t, (1 ≤ s.pc t ∧ s.pc t ≤ n + 1) ↔ s.mutex = some t) ∧
  ((∃ a, s.pc (!a) = 0 ∧ s.trace = progTrace n a (s.pc a)) ∨
    (∃ a, s.pc a = n + 2 ∧
      s.trace = progTrace n a (n + 2) ++ progTrace n (!a) (s.pc (!a))))

/-- Slot indices invoked by thread `t` in a trace, in trace order. -/
def invsOf (t : Bool) (tr : List BEvent) : List Nat :=
  tr.filterMap fun e =>
    match e with
    | BEvent.inv t' i => if t' = t then some i else none
    | _ => none

/-! Theorems about the embedded operations. -/

/-- Claim C1: the code of `push_wait_until` returns `timeout` on a deadline
wake even when the clearing compare-exchange fails because the slot was
already consumed (here `slot_` is nil while the producer's own slot is `s`):
the result of the compare-exchange at the wake continuation is discarded,
so the call does not return `success` as the claim requires. -/
theorem c1_wake_ignores_cas_failure :
    push_wait_until_owner_wake false ({ value := 99, ctx := 7, sid := 0 } : Slot Nat)
      { slot_ := none, closed_ := false, waiting_producers_ := [], waiting_consumers_ := [] } =
      (ChannelOpStatus.timeout,
        { slot_ := none, closed_ := false, waiting_producers_ := [], waiting_consumers_ := [] }) ∧
    ({ slot_ := none, closed_ := false, waiting_producers_ := [], waiting_consumers_ := [] } :
        ChanState Nat).slot_ ≠ some { value := 99, ctx := 7, sid := 0 } := by
  decide

/-- Claim C2: the intrusive `context_slist` loses a context.  Starting from a
fresh list over contexts whose `next` fields are nil, the run push 1, push 2,
pop, pop, push 3 leaves `empty()` true and `pop()` returning nil, although
context 3 was pushed after the pops emptied the queue and was never popped:
`tail_` still points at the `next` field of the popped context 1, so context 3
is appended behind popped context 2 and is unreachable from `head_`. -/
theorem c2_slist_fifo_violation :
    ((SList.init.push 1).push 2).pop.1 = some 1 ∧
    ((((SList.init.push 1).push 2).pop.2).pop).1 = some 2 ∧
    (((((SList.init.push 1).push 2).pop.2).pop.2).push 3).empty = true ∧
    ((((((SList.init.push 1).push 2).pop.2).pop.2).push 3).pop).1 = none := by
  decide

/-- Claim C3, counterexample: with one waiter in the cv's queue, the trace of
`notify_all` is acquire, `set_ready`, release — a `set_ready` event precedes
the release of the spinlock, so it is not the case that waiters are scheduled
only after the spinlock is released. -/
theorem c3_schedule_before_release_counterexample :
    ¬ NoScheduleBeforeRelease (notify_all [0]).1 := by
  intro h
  exact h [CvEvent.acq, CvEvent.setReady 0] [] rfl 0 (by simp)

/-- Scan helper: draining the queue keeps the spinlock held until the final
release. -/
theorem cvLockScan_drain (q : List CtxId) :
    cvLockScan true (notify_all_drain q ++ [CvEvent.rel]) = true := by
  induction q with
  | nil => rfl
  | cons c rest ih => simpa [notify_all_drain, cvLockScan] using ih

/-- Scan helper: the drain loop emits exactly the queued waiters, in order. -/
theorem readyEvents_drain (q : List CtxId) :
    readyEvents (notify_all_drain q) = q := by
  induction q with
  | nil => rfl
  | cons c rest ih => simpa [notify_all_drain, readyEvents] using ih

/-- Claim C3, amended: `notify_all` pops each waiter and schedules it while
still holding the cv's spinlock — every `set_ready` event lies inside the
locked region of the trace — the waiters are scheduled in FIFO queue order,
and the wait-queue is left empty. -/
theorem c3_notify_all_schedules_under_lock (q : List CtxId) :
    cvLockScan false (notify_all q).1 = true ∧
    readyEvents (notify_all q).1 = q ∧
    (notify_all q).2 = [] := by
  refine ⟨?_, ?_, rfl⟩
  · simpa [notify_all, cvLockScan] using cvLockScan_drain q
  · simpa [notify_all, readyEvents, List.filterMap_append] using readyEvents_drain q

/-- Claim C4: once the channel is closed, one loop iteration of either `push`
overload, and of either `push_wait_until` overload, returns `closed` with the
state unchanged — no slot is published and no waiter is enqueued — and, when
no slot is published, one loop iteration of `pop` and of `pop_wait_until`
returns `closed` with the state unchanged.  These iterations are the whole
call: each returns on its first test, so the loop never repeats, and
`push_wait_for` / `pop_wait_for` merely delegate to the until-variants. -/
theorem c4_closed_rejects {α : Type} (active_ctx : CtxId) (value : α) (sid : Nat)
    (st : ChanState α) (h : st.closed_ = true) :
    push_iter_copy active_ctx value sid st = .ret .closed st [] ∧
    push_iter_move active_ctx value sid st = .ret .closed st [] ∧
    push_wait_until_iter_copy active_ctx value sid st = .ret .closed st [] ∧
    push_wait_until_iter_move active_ctx value sid st = .ret .closed st [] ∧
    (st.slot_ = none →
      pop_iter active_ctx value st = .ret .closed value st [] ∧
      pop_wait_until_iter active_ctx value st = .ret .closed value st []) := by
  obtain ⟨sl, cl, wp, wc⟩ := st
  simp only at h
  subst h
  refine ⟨?_, ?_, ?_, ?_, fun h2 => ?_⟩ <;>
    first
      | simp [push_iter_copy, push_iter_move, push_wait_until_iter_copy,
          push_wait_until_iter_move, is_closed]
      | (simp only at h2; subst h2;
         exact ⟨by simp [pop_iter, try_pop_, is_closed],
           by simp [pop_wait_until_iter, try_pop_, is_closed]⟩)

/-- Witness for claim C4 at a concrete closed channel. -/
theorem c4_closed_rejects_witness :
    ({ slot_ := none, closed_ := true, waiting_producers_ := [], waiting_consumers_ := [] } :
        ChanState Nat).closed_ = true ∧
    push_iter_copy 0 5 0
        ({ slot_ := none, closed_ := true, waiting_producers_ := [], waiting_consumers_ := [] } :
          ChanState Nat) =
      .ret .closed
        { slot_ := none, closed_ := true, waiting_producers_ := [], waiting_consumers_ := [] } [] :=
  ⟨rfl, (c4_closed_rejects 0 5 0 _ rfl).1⟩

/-- Claim C5: one examination of the channel by `value_pop` raises the fiber
error carrying `operation_not_permitted` exactly when the channel is closed
and no slot is published; whenever a slot is published the examination
returns the slot's value and does not raise. -/
theorem c5_value_pop_raises_iff {α : Type} [DecidableEq α] (active_ctx : CtxId)
    (st : ChanState α) :
    (value_pop_iter active_ctx st =
        ValuePopRes.raise
          { code := .operation_not_permitted, msg := "boost fiber: channel is closed" } st
      ↔ st.closed_ = true ∧ st.slot_ = none) ∧
    (∀ s : Slot α, st.slot_ = some s →
      ∃ st2 sched, value_pop_iter active_ctx st = ValuePopRes.ret s.value st2 sched) := by
  obtain ⟨sl, cl, wp, wc⟩ := st
  constructor
  · rcases sl with _ | s
    · cases cl <;> simp [value_pop_iter, try_pop_, is_closed, is_empty_]
    · rcases wp with _ | ⟨p, ps⟩ <;>
        simp [value_pop_iter, try_pop_, wqPop]
  · intro s hs
    simp only at hs
    subst hs
    rcases wp with _ | ⟨p, ps⟩ <;> exact ⟨_, _, rfl⟩

/-- Witness for claim C5 at a closed empty channel and at a channel holding a
published slot. -/
theorem c5_value_pop_raises_iff_witness :
    (({ slot_ := some { value := 4, ctx := 2, sid := 0 }, closed_ := false,
        waiting_producers_ := [], waiting_consumers_ := [] } : ChanState Nat).slot_ =
      some { value := 4, ctx := 2, sid := 0 }) ∧
    (∃ st2 sched, value_pop_iter 0
        ({ slot_ := some { value := 4, ctx := 2, sid := 0 }, closed_ := false,
           waiting_producers_ := [], waiting_consumers_ := [] } : ChanState Nat) =
      ValuePopRes.ret 4 st2 sched) :=
  ⟨rfl, (c5_value_pop_raises_iff 0 _).2 { value := 4, ctx := 2, sid := 0 } rfl⟩

/-- Claim C6: a deadline wake of `pop_wait_until` returns `timeout` with the
out-parameter value unchanged and unlinks the calling context from the
consumers queue; a deadline wake of `push_wait_until` while on the producers
queue unlinks the calling context from the producers queue.  In both cases
the context afterwards appears in neither wait-queue of the channel. -/
theorem c6_timeout_unlinks {α : Type} (active_ctx : CtxId) (value : α)
    (stPop stPush : ChanState α)
    (h1 : stPop.waiting_consumers_.count active_ctx = 1)
    (h2 : active_ctx ∉ stPop.waiting_producers_)
    (h3 : stPush.waiting_producers_.count active_ctx = 1)
    (h4 : active_ctx ∉ stPush.waiting_consumers_) :
    (pop_wait_until_waiter_wake false active_ctx value stPop).1 =
      some (ChannelOpStatus.timeout, value) ∧
    active_ctx ∉ (pop_wait_until_waiter_wake false active_ctx value stPop).2.waiting_consumers_ ∧
    active_ctx ∉ (pop_wait_until_waiter_wake false active_ctx value stPop).2.waiting_producers_ ∧
    (push_wait_until_waiter_wake false active_ctx stPush).1 = some ChannelOpStatus.timeout ∧
    active_ctx ∉ (push_wait_until_waiter_wake false active_ctx stPush).2.waiting_producers_ ∧
    active_ctx ∉ (push_wait_until_waiter_wake false active_ctx stPush).2.waiting_consumers_ := by
  have e1 : (stPop.waiting_consumers_.erase active_ctx).count active_ctx = 0 := by
    rw [List.count_erase_self]
    omega
  have e2 : (stPush.waiting_producers_.erase active_ctx).count active_ctx = 0 := by
    rw [List.count_erase_self]
    omega
  refine ⟨rfl, ?_, ?_, rfl, ?_, ?_⟩ <;>
    simp [pop_wait_until_waiter_wake, push_wait_until_waiter_wake, wqUnlink]
  · exact List.count_eq_zero.mp e1
  · exact h2
  · exact List.count_eq_zero.mp e2
  · exact h4

/-- Witness for claim C6 at concrete one-element wait-queues. -/
theorem c6_timeout_unlinks_witness :
    (([7] : List CtxId).count 7 = 1 ∧ (7 : CtxId) ∉ ([] : List CtxId)) ∧
    (pop_wait_until_waiter_wake false 7 (3 : Nat)
        { slot_ := none, closed_ := false, waiting_producers_ := [], waiting_consumers_ := [7] }).1 =
      some (ChannelOpStatus.timeout, 3) ∧
    (7 : CtxId) ∉ (pop_wait_until_waiter_wake false 7 (3 : Nat)
        { slot_ := none, closed_ := false, waiting_producers_ := [],
          waiting_consumers_ := [7] }).2.waiting_consumers_ :=
  ⟨⟨by decide, by decide⟩,
    (c6_timeout_unlinks 7 3
      { slot_ := none, closed_ := false, waiting_producers_ := [], waiting_consumers_ := [7] }
      { slot_ := none, closed_ := false, waiting_producers_ := [7], waiting_consumers_ := [] }
      (by decide) (by decide) (by decide) (by decide)).1,
    (c6_timeout_unlinks 7 3
      { slot_ := none, closed_ := false, waiting_producers_ := [], waiting_consumers_ := [7] }
      { slot_ := none, closed_ := false, waiting_producers_ := [7], waiting_consumers_ := [] }
      (by decide) (by decide) (by decide) (by decide)).2.1⟩

/-- Claim C7: `close` is idempotent — a second `close` leaves the state of
the first one unchanged (closed flag, slot pointer and both queues) and
schedules no waiter. -/
theorem c7_close_idempotent {α : Type} (st : ChanState α) :
    close (close st).1 = ((close st).1, ([] : List CtxId)) :=
  rfl

/-- Claim C9: the copy-accepting and move-accepting overloads of `push` and
of `push_wait_until` are behaviorally equivalent — on the same state and
value they produce identical iteration outcomes, and the slots they build
are identical; in a value-semantics embedding the copy/move distinction is
only how the stack slot captures the value. -/
theorem c9_push_overloads_equal {α : Type} (active_ctx : CtxId) (value : α)
    (sid : Nat) (st : ChanState α) :
    push_iter_copy active_ctx value sid st = push_iter_move active_ctx value sid st ∧
    push_wait_until_iter_copy active_ctx value sid st =
      push_wait_until_iter_move active_ctx value sid st ∧
    slot_from_copy value active_ctx sid = slot_from_move value active_ctx sid :=
  ⟨rfl, rfl, rfl⟩

/-- Claim C10: the closed flag is monotone — every embedded operation of the
channel maps a state with `closed_ = true` to a state with `closed_ = true`;
no operation ever stores `false` into `closed_`. -/
theorem c10_closed_monotone {α : Type} (active_ctx : CtxId) (value : α) (sid : Nat)
    (woken : Bool) (s : Slot α) (st : ChanState α) (h : st.closed_ = true) :
    (try_push_ st s).2.closed_ = true ∧
    (try_pop_ st).2.closed_ = true ∧
    (close st).1.closed_ = true ∧
    (dtor st).1.closed_ = true ∧
    (push_iter_copy active_ctx value sid st).state.closed_ = true ∧
    (push_iter_move active_ctx value sid st).state.closed_ = true ∧
    (push_wait_until_iter_copy active_ctx value sid st).state.closed_ = true ∧
    (push_wait_until_iter_move active_ctx value sid st).state.closed_ = true ∧
    (push_wait_until_owner_wake woken s st).2.closed_ = true ∧
    (push_wait_until_waiter_wake woken active_ctx st).2.closed_ = true ∧
    (pop_iter active_ctx value st).state.closed_ = true ∧
    (pop_wait_until_iter active_ctx value st).state.closed_ = true ∧
    (pop_wait_until_waiter_wake woken active_ctx value st).2.closed_ = true ∧
    (value_pop_iter active_ctx st).state.closed_ = true := by
  obtain ⟨sl, cl, wp, wc⟩ := st
  simp only at h
  subst h
  rcases sl with _ | s' <;> rcases wp with _ | ⟨p, ps⟩ <;> cases woken <;>
    simp [try_push_, try_pop_, close, dtor, push_iter_copy, push_iter_move,
      push_wait_until_iter_copy, push_wait_until_iter_move, push_wait_until_owner_wake,
      push_wait_until_waiter_wake, pop_iter, pop_wait_until_iter,
      pop_wait_until_waiter_wake, value_pop_iter, PushRes.state, PopRes.state,
      ValuePopRes.state, is_closed, is_empty_, wqPop, wqPush, wqUnlink,
      slot_from_copy, slot_from_move] <;>
    split_ifs <;> simp

/-- Witness for claim C10 at a concrete closed channel. -/
theorem c10_closed_monotone_witness :
    ({ slot_ := none, closed_ := true, waiting_producers_ := [], waiting_consumers_ := [] } :
        ChanState Nat).closed_ = true ∧
    (close ({ slot_ := none, closed_ := true, waiting_producers_ := [], waiting_consumers_ := [] } : ChanState Nat)).1.closed_ = true :=
  ⟨rfl,
    (c10_closed_monotone 0 0 0 false { value := 0, ctx := 0, sid := 0 } _ rfl).2.2.1⟩

/-! Broadcast serialization: invariant and helper lemmas for claim C8. -/

/-- Bool helper: every thread is `t` or the other thread. -/
theorem bool_dichotomy (u t : Bool) : u = t ∨ u = !t := by
  cases u <;> cases t <;> simp

/-- Bool helper: the two threads differ. -/
theorem bnot_ne (t : Bool) : (!t) ≠ t := by
  simp

/-- Program counter after `setPc`. -/
theorem pc_setPc (s : BState) (t u : Bool) (v : Nat) :
    (s.setPc t v).pc u = if u = t then v else s.pc u := by
  cases t <;> cases u <;> simp [BState.pc, BState.setPc]

/-- Program counters ignore mutex and trace updates. -/
theorem pc_withMutexTrace (x : BState) (m : Option Bool) (tr : List BEvent) (u : Bool) :
    ({ x with mutex := m, trace := tr } : BState).pc u = x.pc u := by
  cases u <;> rfl

/-- Program counters ignore trace updates. -/
theorem pc_withTrace (x : BState) (tr : List BEvent) (u : Bool) :
    ({ x with trace := tr } : BState).pc u = x.pc u := by
  cases u <;> rfl

/-- Mutex after a mutex-and-trace record update. -/
theorem mutex_withMutexTrace (x : BState) (m : Option Bool) (tr : List BEvent) :
    ({ x with mutex := m, trace := tr } : BState).mutex = m :=
  rfl

/-- Mutex after a trace-only record update. -/
theorem mutex_withTrace (x : BState) (tr : List BEvent) :
    ({ x with trace := tr } : BState).mutex = x.mutex :=
  rfl

/-- Mutex is unchanged by `setPc`. -/
theorem mutex_setPc (s : BState) (t : Bool) (v : Nat) :
    (s.setPc t v).mutex = s.mutex := by
  cases t <;> rfl

/-- Trace contribution at program counter zero. -/
theorem progTrace_zero (n : Nat) (t : Bool) : progTrace n t 0 = [] := by
  simp [progTrace]

/-- Trace contribution right after acquiring the mutex. -/
theorem progTrace_one (n : Nat) (t : Bool) : progTrace n t 1 = [BEvent.acq t] := by
  have h : 1 ≤ n + 1 := by omega
  simp [progTrace, h, invSeq]

/-- Trace contribution grows by one invocation event per `invoke` step. -/
theorem progTrace_invoke {n k : Nat} (t : Bool) (hk : k < n) :
    progTrace n t (k + 2) = progTrace n t (k + 1) ++ [BEvent.inv t k] := by
  have h1 : k + 1 ≤ n + 1 := by omega
  have h2 : k + 2 ≤ n + 1 := by omega
  simp [progTrace, h1, h2, invSeq, List.range_succ]

/-- Trace contribution gains the release event at the final step. -/
theorem progTrace_release (n : Nat) (t : Bool) :
    progTrace n t (n + 2) = progTrace n t (n + 1) ++ [BEvent.rel t] := by
  have h1 : n + 1 ≤ n + 1 := le_refl _
  have h2 : ¬ (n + 2 ≤ n + 1) := by omega
  simp [progTrace, h1, h2]

/-- Every event of a thread's trace contribution belongs to that thread. -/
theorem mem_progTrace_thread {n : Nat} {a : Bool} {pc : Nat} {e : BEvent}
    (he : e ∈ progTrace n a pc) : e.thread = a := by
  unfold progTrace at he
  split_ifs at he with h0 h1
  · simp at he
  · rcases List.mem_cons.mp he with rfl | hm
    · rfl
    · unfold invSeq at hm
      obtain ⟨i, _, rfl⟩ := List.mem_map.mp hm
      rfl
  · rcases List.mem_cons.mp he with rfl | hm
    · rfl
    · rcases List.mem_append.mp hm with hm1 | hm2
      · unfold invSeq at hm1
        obtain ⟨i, _, rfl⟩ := List.mem_map.mp hm1
        rfl
      · simp at hm2
        subst hm2
        rfl

/-- Initial broadcast state satisfies the invariant. -/
theorem bInv_init (n : Nat) : BInv n bInit := by
  refine ⟨?_, ?_, Or.inl ⟨true, rfl, (progTrace_zero n true).symm⟩⟩
  · intro t
    cases t <;> simp [bInit, BState.pc]
  · intro t
    cases t <;> simp [bInit, BState.pc]

/-- One broadcast step preserves the invariant. -/
theorem bInv_step {n : Nat} {s s' : BState} (hs : BInv n s) (h : BStep n s s') :
    BInv n s' := by
  obtain ⟨hb, hm, hshape⟩ := hs
  cases h with
  | acquire t _ hmx hpc =>
    have hother : s.pc (!t) = 0 ∨ s.pc (!t) = n + 2 := by
      rcases Nat.lt_or_ge (s.pc (!t)) 1 with h1 | h1
      · left; omega
      · rcases Nat.lt_or_ge (n + 1) (s.pc (!t)) with h2 | h2
        · right
          have := hb (!t)
          omega
        · exfalso
          have h3 := (hm (!t)).mp ⟨h1, h2⟩
          rw [hmx] at h3
          exact Option.noConfusion h3
    refine ⟨?_, ?_, ?_⟩
    · intro u
      rw [pc_withMutexTrace, pc_setPc]
      split_ifs with hu
      · omega
      · exact hb u
    · intro u
      rw [pc_withMutexTrace, pc_setPc, mutex_withMutexTrace]
      rcases bool_dichotomy u t with rfl | rfl
      · rw [if_pos rfl]
        constructor
        · intro _
          rfl
        · intro _
          exact ⟨le_refl 1, by omega⟩
      · rw [if_neg (bnot_ne t)]
        constructor
        · intro hcon
          exfalso
          rcases hother with h0 | h0 <;> omega
        · intro hcon
          exfalso
          have h4 := Option.some.inj hcon
          exact bnot_ne t h4.symm
    · rcases hshape with ⟨a, ha0, htr⟩ | ⟨a, haN, htr⟩
      · rcases bool_dichotomy a t with rfl | rfl
        · left
          refine ⟨a, ?_, ?_⟩
          · rw [pc_withMutexTrace, pc_setPc, if_neg (bnot_ne a)]
            exact ha0
          · show s.trace ++ [BEvent.acq a] = _
            rw [pc_withMutexTrace, pc_setPc, if_pos rfl, progTrace_one, htr, hpc,
              progTrace_zero]
            simp
        · rw [Bool.not_not] at ha0
          rcases hother with h0 | h0
          · left
            refine ⟨t, ?_, ?_⟩
            · rw [pc_withMutexTrace, pc_setPc, if_neg (bnot_ne t)]
              exact h0
            · show s.trace ++ [BEvent.acq t] = _
              rw [pc_withMutexTrace, pc_setPc, if_pos rfl, progTrace_one, htr, h0,
                progTrace_zero]
              simp
          · right
            refine ⟨!t, ?_, ?_⟩
            · rw [pc_withMutexTrace, pc_setPc, if_neg (bnot_ne t)]
              exact h0
            · show s.trace ++ [BEvent.acq t] = _
              rw [Bool.not_not, pc_withMutexTrace, pc_setPc, if_pos rfl, progTrace_one,
                htr, h0]
      · rcases bool_dichotomy a t with rfl | rfl
        · exfalso
          omega
        · right
          refine ⟨!t, ?_, ?_⟩
          · rw [pc_withMutexTrace, pc_setPc, if_neg (bnot_ne t)]
            exact haN
          · rw [Bool.not_not] at htr
            rw [hpc, progTrace_zero, List.append_nil] at htr
            show s.trace ++ [BEvent.acq t] = _
            rw [Bool.not_not, pc_withMutexTrace, pc_setPc, if_pos rfl, progTrace_one, htr]
  | invoke t _ k hpc hk =>
    have hmxt : s.mutex = some t := (hm t).mp ⟨by omega, by omega⟩
    have hother : s.pc (!t) = 0 ∨ s.pc (!t) = n + 2 := by
      rcases Nat.lt_or_ge (s.pc (!t)) 1 with h1 | h1
      · left; omega
      · rcases Nat.lt_or_ge (n + 1) (s.pc (!t)) with h2 | h2
        · right
          have := hb (!t)
          omega
        · exfalso
          have h3 := (hm (!t)).mp ⟨h1, h2⟩
          rw [hmxt] at h3
          exact bnot_ne t (Option.some.inj h3).symm
    refine ⟨?_, ?_, ?_⟩
    · intro u
      rw [pc_withTrace, pc_setPc]
      split_ifs with hu
      · omega
      · exact hb u
    · intro u
      rw [pc_withTrace, pc_setPc, mutex_withTrace, mutex_setPc, hmxt]
      rcases bool_dichotomy u t with rfl | rfl
      · rw [if_pos rfl]
        constructor
        · intro _
          rfl
        · intro _
          exact ⟨by omega, by omega⟩
      · rw [if_neg (bnot_ne t)]
        constructor
        · intro hcon
          exfalso
          rcases hother with h0 | h0 <;> omega
        · intro hcon
          exfalso
          exact bnot_ne t (Option.some.inj hcon).symm
    · rcases hshape with ⟨a, ha0, htr⟩ | ⟨a, haN, htr⟩
      · rcases bool_dichotomy a t with rfl | rfl
        · left
          refine ⟨a, ?_, ?_⟩
          · rw [pc_withTrace, pc_setPc, if_neg (bnot_ne a)]
            exact ha0
          · show s.trace ++ [BEvent.inv a k] = _
            rw [pc_withTrace, pc_setPc, if_pos rfl, progTrace_invoke a hk, htr, hpc]
        · exfalso
          rw [Bool.not_not] at ha0
          omega
      · rcases bool_dichotomy a t with rfl | rfl
        · exfalso
          omega
        · right
          refine ⟨!t, ?_, ?_⟩
          · rw [pc_withTrace, pc_setPc, if_neg (bnot_ne t)]
            exact haN
          · rw [Bool.not_not] at htr
            show s.trace ++ [BEvent.inv t k] = _
            rw [Bool.not_not, pc_withTrace, pc_setPc, if_pos rfl, htr, hpc,
              progTrace_invoke t hk, List.append_assoc]
  | release t _ hpc =>
    have hmxt : s.mutex = some t := (hm t).mp ⟨by omega, by omega⟩
    have hother : s.pc (!t) = 0 ∨ s.pc (!t) = n + 2 := by
      rcases Nat.lt_or_ge (s.pc (!t)) 1 with h1 | h1
      · left; omega
      · rcases Nat.lt_or_ge (n + 1) (s.pc (!t)) with h2 | h2
        · right
          have := hb (!t)
          omega
        · exfalso
          have h3 := (hm (!t)).mp ⟨h1, h2⟩
          rw [hmxt] at h3
          exact bnot_ne t (Option.some.inj h3).symm
    refine ⟨?_, ?_, ?_⟩
    · intro u
      rw [pc_withMutexTrace, pc_setPc]
      split_ifs with hu
      · omega
      · exact hb u
    · intro u
      rw [pc_withMutexTrace, pc_setPc, mutex_withMutexTrace]
      constructor
      · intro hcon
        exfalso
        rcases bool_dichotomy u t with rfl | rfl
        · rw [if_pos rfl] at hcon
          omega
        · rw [if_neg (bnot_ne t)] at hcon
          rcases hother with h0 | h0 <;> omega
      · intro hcon
        exact Option.noConfusion hcon
    · rcases hshape with ⟨a, ha0, htr⟩ | ⟨a, haN, htr⟩
      · rcases bool_dichotomy a t with rfl | rfl
        · left
          refine ⟨a, ?_, ?_⟩
          · rw [pc_withMutexTrace, pc_setPc, if_neg (bnot_ne a)]
            exact ha0
          · show s.trace ++ [BEvent.rel a] = _
            rw [pc_withMutexTrace, pc_setPc, if_pos rfl, progTrace_release n a, htr, hpc]
        · exfalso
          rw [Bool.not_not] at ha0
          omega
      · rcases bool_dichotomy a t with rfl | rfl
        · exfalso
          omega
        · right
          refine ⟨!t, ?_, ?_⟩
          · rw [pc_withMutexTrace, pc_setPc, if_neg (bnot_ne t)]
            exact haN
          · rw [Bool.not_not] at htr
            show s.trace ++ [BEvent.rel t] = _
            rw [Bool.not_not, pc_withMutexTrace, pc_setPc, if_pos rfl, htr, hpc,
              progTrace_release n t, List.append_assoc]

/-- Every reachable broadcast state satisfies the invariant. -/
theorem bInv_reach {n : Nat} {s : BState} (h : BReach n s) : BInv n s := by
  unfold BReach at h
  induction h with
  | refl => exact bInv_init n
  | tail _ h2 ih => exact bInv_step ih h2

/-- The trace of a state satisfying the invariant splits into a block of one
thread's events followed by a block of the other thread's events. -/
theorem bInv_trace_split {n : Nat} {s : BState} (h : BInv n s) :
    ∃ (a : Bool) (l1 l2 : List BEvent), s.trace = l1 ++ l2 ∧
      (∀ e ∈ l1, e.thread = a) ∧ (∀ e ∈ l2, e.thread = !a) := by
  obtain ⟨_, _, hshape⟩ := h
  rcases hshape with ⟨a, _, htr⟩ | ⟨a, _, htr⟩
  · exact ⟨a, progTrace n a (s.pc a), [], by simpa using htr,
      fun e he => mem_progTrace_thread he, by simp⟩
  · exact ⟨a, progTrace n a (n + 2), progTrace n (!a) (s.pc (!a)), htr,
      fun e he => mem_progTrace_thread he, fun e he => mem_progTrace_thread he⟩

/-- Bool clash helper: a thread cannot equal both a thread and its negation. -/
theorem bool_absurd2 {t a : Bool} (q1 : t = a) (q2 : t = !a) : False := by
  subst q1
  exact (Bool.eq_not_self t).mp q2

/-- Bool clash helper: a thread and its negation cannot both equal the
negation of a thread. -/
theorem bool_absurd1 {t a : Bool} (q1 : t = !a) (q2 : (!t) = !a) : False := by
  have q3 : t = a := by
    rw [← Bool.not_not t, q2, Bool.not_not]
  exact bool_absurd2 q3 q1

/-- Bool clash helper: a thread and its negation cannot both equal a thread. -/
theorem bool_absurd3 {t a : Bool} (q1 : t = a) (q2 : (!t) = a) : False := by
  subst q1
  exact (Bool.not_eq_self t).mp q2

/-- No alternation lemma: when a trace is a block of thread `a` events
followed by a block of the other thread's events, no slot invocation of one
thread can lie strictly between two invocations of the other thread. -/
theorem no_aba {l1 l2 : List BEvent} {a : Bool}
    (h1 : ∀ e ∈ l1, e.thread = a) (h2 : ∀ e ∈ l2, e.thread = !a)
    (t : Bool) (i j k : Nat) :
    ¬ List.Sublist [BEvent.inv t i, BEvent.inv (!t) j, BEvent.inv t k] (l1 ++ l2) := by
  intro hsub
  rw [List.sublist_append_iff] at hsub
  obtain ⟨u, v, huv, hu, hv⟩ := hsub
  have hmu : ∀ e ∈ u, e.thread = a := fun e he => h1 e (hu.subset he)
  have hmv : ∀ e ∈ v, e.thread = !a := fun e he => h2 e (hv.subset he)
  rcases u with _ | ⟨e1, _ | ⟨e2, _ | ⟨e3, u4⟩⟩⟩
  · rw [List.nil_append] at huv
    subst huv
    have q1 := hmv (BEvent.inv t i) (by simp)
    have q2 := hmv (BEvent.inv (!t) j) (by simp)
    simp only [BEvent.thread] at q1 q2
    exact bool_absurd1 q1 q2
  · simp only [List.cons_append, List.nil_append, List.cons.injEq] at huv
    obtain ⟨rfl, hv2⟩ := huv
    have q1 := hmu (BEvent.inv t i) (by simp)
    have q3 := hmv (BEvent.inv t k) (by rw [← hv2]; simp)
    simp only [BEvent.thread] at q1 q3
    exact bool_absurd2 q1 q3
  · simp only [List.cons_append, List.nil_append, List.cons.injEq] at huv
    obtain ⟨rfl, rfl, hv2⟩ := huv
    have q1 := hmu (BEvent.inv t i) (by simp)
    have q2 := hmu (BEvent.inv (!t) j) (by simp)
    simp only [BEvent.thread] at q1 q2
    exact bool_absurd3 q1 q2
  · simp only [List.cons_append, List.cons.injEq] at huv
    obtain ⟨rfl, rfl, rfl, hv2⟩ := huv
    have q1 := hmu (BEvent.inv t i) (by simp)
    have q2 := hmu (BEvent.inv (!t) j) (by simp)
    simp only [BEvent.thread] at q1 q2
    exact bool_absurd3 q1 q2

/-- Invocation lists ignore acquire events. -/
theorem invsOf_cons_acq (t b : Bool) (l : List BEvent) :
    invsOf t (BEvent.acq b :: l) = invsOf t l := by
  simp [invsOf]

/-- Invocation lists ignore release events. -/
theorem invsOf_cons_rel (t b : Bool) (l : List BEvent) :
    invsOf t (BEvent.rel b :: l) = invsOf t l := by
  simp [invsOf]

/-- Invocation lists distribute over appending. -/
theorem invsOf_append (t : Bool) (l1 l2 : List BEvent) :
    invsOf t (l1 ++ l2) = invsOf t l1 ++ invsOf t l2 := by
  simp [invsOf]

/-- Invocations of a thread in an invocation block. -/
theorem invsOf_invSeq (t a : Bool) (m : Nat) :
    invsOf t (invSeq a m) = if a = t then List.range m else [] := by
  induction m with
  | zero => by_cases h : a = t <;> simp [invsOf, invSeq, h]
  | succ m ih =>
      have hstep : invSeq a (m + 1) = invSeq a m ++ [BEvent.inv a m] := by
        unfold invSeq
        rw [List.range_succ, List.map_append]
        simp
      rw [hstep, invsOf_append, ih]
      by_cases h : a = t
      · simp [invsOf, h, List.range_succ]
      · simp [invsOf, h]

/-- Invocations of a thread in another thread's trace contribution form an
initial range of the subscription order. -/
theorem invsOf_progTrace (t a : Bool) (n pc : Nat) (_hpc : pc ≤ n + 2) :
    ∃ m, m ≤ n ∧ invsOf t (progTrace n a pc) = if a = t then List.range m else [] := by
  by_cases h0 : pc = 0
  · refine ⟨0, Nat.zero_le n, ?_⟩
    rw [h0, progTrace_zero]
    by_cases h : a = t <;> simp [invsOf, h]
  · by_cases h1 : pc ≤ n + 1
    · refine ⟨pc - 1, by omega, ?_⟩
      have hform : progTrace n a pc = BEvent.acq a :: invSeq a (pc - 1) := by
        unfold progTrace
        rw [if_neg h0, if_pos h1]
      rw [hform, invsOf_cons_acq, invsOf_invSeq]
    · refine ⟨n, le_refl n, ?_⟩
      have hform : progTrace n a pc = BEvent.acq a :: (invSeq a n ++ [BEvent.rel a]) := by
        unfold progTrace
        rw [if_neg h0, if_neg h1]
      rw [hform, invsOf_cons_acq, invsOf_append, invsOf_invSeq, invsOf_cons_rel]
      simp [invsOf]

/-- Invocations of each thread in a reachable trace form an initial range of
the subscription order. -/
theorem bInv_invsOf {n : Nat} {s : BState} (h : BInv n s) (t : Bool) :
    ∃ m, m ≤ n ∧ invsOf t s.trace = List.range m := by
  obtain ⟨hb, _, hshape⟩ := h
  rcases hshape with ⟨a, _, htr⟩ | ⟨a, _, htr⟩
  · rw [htr]
    obtain ⟨m, hm1, hm2⟩ := invsOf_progTrace t a n (s.pc a) (hb a)
    rcases bool_dichotomy t a with rfl | rfl
    · exact ⟨m, hm1, by rw [hm2]; simp⟩
    · exact ⟨0, Nat.zero_le n, by rw [hm2]; simp⟩
  · rw [htr, invsOf_append]
    obtain ⟨m1, hm1a, hm1b⟩ := invsOf_progTrace t a n (n + 2) (le_refl _)
    obtain ⟨m2, hm2a, hm2b⟩ := invsOf_progTrace t (!a) n (s.pc (!a)) (hb (!a))
    rw [hm1b, hm2b]
    rcases bool_dichotomy t a with rfl | rfl
    · exact ⟨m1, hm1a, by simp⟩
    · exact ⟨m2, hm2a, by simp⟩

/-- Claim C8: across concurrent `notify` calls on the same broadcast sink,
slot invocations are serialized by the sink's mutex — in every reachable
trace no invocation of one thread lies between two invocations of the other
thread, and each thread's invocations follow the subscription order as an
initial segment of the slot indices. -/
theorem c8_notify_serialized (n : Nat) (s : BState) (h : BReach n s) :
    (∀ (t : Bool) (i j k : Nat),
      ¬ List.Sublist [BEvent.inv t i, BEvent.inv (!t) j, BEvent.inv t k] s.trace) ∧
    (∀ t : Bool, ∃ m, m ≤ n ∧ invsOf t s.trace = List.range m) := by
  have hinv : BInv n s := bInv_reach h
  constructor
  · intro t i j k
    obtain ⟨a, l1, l2, htr, h1, h2⟩ := bInv_trace_split hinv
    rw [htr]
    exact no_aba h1 h2 t i j k
  · exact bInv_invsOf hinv

/-- Final broadcast state of the concrete two-thread run used as the witness
for claim C8. -/
def bFinal : BState :=
  { mutex := none
    pcF := 3
    pcT := 3
    trace := [BEvent.acq false, BEvent.inv false 0, BEvent.rel false,
              BEvent.acq true, BEvent.inv true 0, BEvent.rel true] }

/-- Witness for claim C8: a concrete reachable state in which both threads
completed their `notify` call over a single subscribed slot. -/
theorem c8_notify_serialized_witness :
    BReach 1 bFinal ∧
    (∀ (t : Bool) (i j k : Nat),
      ¬ List.Sublist [BEvent.inv t i, BEvent.inv (!t) j, BEvent.inv t k] bFinal.trace) := by
  have h1 : BStep 1 bInit
      { mutex := some false, pcF := 1, pcT := 0, trace := [BEvent.acq false] } :=
    BStep.acquire false bInit rfl rfl
  have h2 : BStep 1
      { mutex := some false, pcF := 1, pcT := 0, trace := [BEvent.acq false] }
      { mutex := some false, pcF := 2, pcT := 0,
        trace := [BEvent.acq false, BEvent.inv false 0] } :=
    BStep.invoke false _ 0 rfl Nat.zero_lt_one
  have h3 : BStep 1
      { mutex := some false, pcF := 2, pcT := 0,
        trace := [BEvent.acq false, BEvent.inv false 0] }
      { mutex := none, pcF := 3, pcT := 0,
        trace := [BEvent.acq false, BEvent.inv false 0, BEvent.rel false] } :=
    BStep.release false _ rfl
  have h4 : BStep 1
      { mutex := none, pcF := 3, pcT := 0,
        trace := [BEvent.acq false, BEvent.inv false 0, BEvent.rel false] }
      { mutex := some true, pcF := 3, pcT := 1,
        trace := [BEvent.acq false, BEvent.inv false 0, BEvent.rel false,
          BEvent.acq true] } :=
    BStep.acquire true _ rfl rfl
  have h5 : BStep 1
      { mutex := some true, pcF := 3, pcT := 1,
        trace := [BEvent.acq false, BEvent.inv false 0, BEvent.rel false,
          BEvent.acq true] }
      { mutex := some true, pcF := 3, pcT := 2,
        trace := [BEvent.acq false, BEvent.inv false 0, BEvent.rel false,
          BEvent.acq true, BEvent.inv true 0] } :=
    BStep.invoke true _ 0 rfl Nat.zero_lt_one
  have h6 : BStep 1
      { mutex := some true, pcF := 3, pcT := 2,
        trace := [BEvent.acq false, BEvent.inv false 0, BEvent.rel false,
          BEvent.acq true, BEvent.inv true 0] }
      { mutex := none, pcF := 3, pcT := 3,
        trace := [BEvent.acq false, BEvent.inv false 0, BEvent.rel false,
          BEvent.acq true, BEvent.inv true 0, BEvent.rel true] } :=
    BStep.release true _ rfl
  have hr : BReach 1
      { mutex := none, pcF := 3, pcT := 3,
        trace := [BEvent.acq false, BEvent.inv false 0, BEvent.rel false,
          BEvent.acq true, BEvent.inv true 0, BEvent.rel true] } :=
    Relation.ReflTransGen.tail
      (Relation.ReflTransGen.tail
        (Relation.ReflTransGen.tail
          (Relation.ReflTransGen.tail
            (Relation.ReflTransGen.tail
              (Relation.ReflTransGen.tail Relation.ReflTransGen.refl h1) h2) h3) h4) h5) h6
  exact ⟨hr, (c8_notify_serialized 1 _ hr).1⟩

end Fiber
